import Mathlib

/-!
A Lean 4 shallow embedding of the COINjecture consensus core: the hash /
merkle / codec / verifier layers and the C FFI surface, together with
theorems settling the frozen specification claims.

The FFI surface (`ffi.rs`), the golden-vector generator
(`bin/generate-vectors.rs`) and the golden tests are translated directly
from the repository sources.  The core library modules (`types.rs`,
`hash.rs`, `merkle.rs`, `codec.rs`, `verify.rs`) are declared and called
by those sources but are absent from the repository snapshot, so the
corresponding definitions below are modelled from the specification, as
flagged in their doc comments.
-/

/-! ## Byte-level helpers -/

/-- Big-endian fixed-width encoding of a natural number: `w` bytes, most
significant first. -/
def natToBeBytes : Nat → Nat → List Nat
  | 0, _ => []
  | w + 1, n => natToBeBytes w (n / 256) ++ [n % 256]

/-- Big-endian interpretation of a byte list as a natural number. -/
def beBytesToNat (bs : List Nat) : Nat :=
  bs.foldl (fun a b => a * 256 + b) 0

/-- All entries of the list are byte values. -/
def isBytes (l : List Nat) : Prop := ∀ b ∈ l, b < 256

/-- Two's-complement representation of a signed 64-bit value as an
unsigned 64-bit value. -/
def intToU64 (t : Int) : Nat := (t % (2 ^ 64 : Nat)).toNat

/-- Inverse of `intToU64` on the signed 64-bit range. -/
def u64ToInt (n : Nat) : Int :=
  if n < 2 ^ 63 then (n : Int) else (n : Int) - 2 ^ 64

/-! ## Hash primitive -/

/-- Modelled from the spec: the hash primitive (`hash::sha256` in the
repository) is the standardized SHA-256 digest, a total deterministic
function from byte sequences to 32-byte outputs, with no error
conditions (spec section 4.1).  Its source (`hash.rs`) is absent from the
repository snapshot; since no claim settled in this file depends on the
numeric value of any digest — only on the digest being a total,
deterministic, 32-byte-valued function — it is modelled here by an
arbitrary concrete function with exactly those properties. -/
def sha256 (data : List Nat) : List Nat :=
  natToBeBytes 32
    (data.foldl (fun a b => (a * 1099511628211 + b + 1) % (2 ^ 256)) (data.length + 1))

/-! ## Merkle layer -/

/-- Modelled from the spec: one pairing pass of the merkle reduction
(`merkle.rs` is absent from the repository snapshot).  Adjacent entries
`(a, b)` are replaced by `sha256 (a ++ b)`; an odd trailing entry is
paired with itself (spec section 4.2). -/
def merkleLevel : List (List Nat) → List (List Nat)
  | [] => []
  | [a] => [sha256 (a ++ a)]
  | a :: b :: rest => sha256 (a ++ b) :: merkleLevel rest

/-- Modelled from the spec: one round of the reduction loop — a level
with more than one entry is pair-reduced, a level with at most one entry
is already fully reduced and is left unchanged. -/
def merkleStep (l : List (List Nat)) : List (List Nat) :=
  if l.length ≤ 1 then l else merkleLevel l

/-- Modelled from the spec: `merkle::compute_merkle_root` (spec section
4.2).  Empty input gives the all-zero 32-byte sentinel; a single leaf is
returned unchanged with no hashing pass; otherwise levels are pair-reduced
until one hash remains.  Each real reduction round strictly shrinks the
level, so iterating `merkleStep` once per original leaf is always enough
to reach the single remaining hash (extra iterations are the identity). -/
def compute_merkle_root (leaves : List (List Nat)) : List Nat :=
  match leaves with
  | [] => List.replicate 32 0
  | [h] => h
  | l => (merkleStep^[l.length] l).headD (List.replicate 32 0)

/-! ## Core data model -/

/-- Hardware tiers, in increasing order (from `types.rs`, declared by the
tests and the FFI layer). -/
inductive HardwareTier where
  | Mobile
  | Desktop
  | Workstation
  | Server
  | Cluster
  deriving DecidableEq, Repr

/-- Position of a tier in the order Mobile < Desktop < Workstation <
Server < Cluster. -/
def HardwareTier.tierIndex : HardwareTier → Nat
  | .Mobile => 0
  | .Desktop => 1
  | .Workstation => 2
  | .Server => 3
  | .Cluster => 4

/-- Modelled from the spec: the tier's permitted element-count range
(`HardwareTier::element_range`, called by the tests and the fuzz targets
but absent from the repository snapshot).  The spec fixes only that each
tier has a permitted `[min, max]` range bounding `problem.elements.length`
(spec section 3); the concrete bounds here are representative. -/
def HardwareTier.element_range : HardwareTier → Nat × Nat
  | .Mobile => (1, 16)
  | .Desktop => (1, 32)
  | .Workstation => (1, 64)
  | .Server => (1, 128)
  | .Cluster => (1, 256)

/-- Problem kinds (from `types.rs`; a single supported kind). -/
inductive ProblemType where
  | SubsetSum
  deriving DecidableEq, Repr

/-- A subset-sum puzzle instance (from `types.rs`, field-for-field as
used by the tests, the fuzz targets and the FFI layer).  Elements are
signed 64-bit integers, represented as `Int`. -/
structure Problem where
  problem_type : ProblemType
  tier : HardwareTier
  elements : List Int
  target : Int
  timestamp : Int
  deriving DecidableEq, Repr

/-- A claimed answer: unsigned 32-bit positions into the problem's
elements, represented as `Nat` (from `types.rs`). -/
structure Solution where
  indices : List Nat
  timestamp : Int
  deriving DecidableEq, Repr

/-- Resource ceiling for one verification call (from `types.rs`). -/
structure VerifyBudget where
  max_ops : Nat
  max_duration_ms : Nat
  max_memory_bytes : Nat
  deriving DecidableEq, Repr

/-- Modelled from the spec: `VerifyBudget::from_tier` (called by the
property tests but absent from the repository snapshot).  The spec fixes
only that the derived budgets are positive and monotonically increasing
in tier order across all three fields (spec sections 3 and 4.4); the
concrete magnitudes here are representative. -/
def VerifyBudget.from_tier (t : HardwareTier) : VerifyBudget :=
  { max_ops := 100000 * 2 ^ t.tierIndex
    max_duration_ms := 100 * 2 ^ t.tierIndex
    max_memory_bytes := 1048576 * 2 ^ t.tierIndex }

/-- Verification verdict (from `types.rs`). -/
structure VerifyResult where
  valid : Bool
  ops_used : Nat
  deriving DecidableEq, Repr

/-- Error returns of the verifier: structural malformation or budget
exhaustion (spec sections 4.4 and 7). -/
inductive VerifyError where
  | invalidInput
  | budgetExceeded
  deriving DecidableEq, Repr

/-! ## Verifier -/

/-- Signed 64-bit bounds. -/
def I64_MIN : Int := -(2 ^ 63)

/-- Signed 64-bit upper bound. -/
def I64_MAX : Int := 2 ^ 63 - 1

/-- Overflow-checked signed 64-bit addition, as Rust's
`i64::checked_add`: the mathematical sum when it fits in the signed
64-bit range, and no value otherwise. -/
def checkedAdd (a b : Int) : Option Int :=
  if I64_MIN ≤ a + b ∧ a + b ≤ I64_MAX then some (a + b) else none

/-- Overflow-checked left-to-right sum of a list starting from an
accumulator; fails at the first overflowing addition. -/
def checkedFold : Int → List Int → Option Int
  | acc, [] => some acc
  | acc, x :: xs =>
    match checkedAdd acc x with
    | some s => checkedFold s xs
    | none => none

/-- The overflow-checked sum of the problem elements at the given
indices, in order, starting from zero. -/
def checkedSumAt (elems : List Int) (idxs : List Nat) : Option Int :=
  checkedFold 0 (idxs.map fun i => elems.getD i 0)

/-- Modelled from the spec: the index walk of `verify::verify_solution`
(spec section 4.4, steps 3-5; `verify.rs` is absent from the repository
snapshot).  One pass over the indices maintaining the operation counter
`ops`, the already-seen set `seen`, the bad-index flag `bad` (duplicate or
out-of-range), the overflow flag `ovf` and the running sum `acc`.  Each
index increments the counter; a counter exceeding `maxOps` aborts with a
budget-exceeded error; a duplicate or out-of-range index marks the
solution invalid but processing continues; an in-range index is
accumulated with overflow-checked addition, an overflow marking the
solution invalid. -/
def verifyLoop (elems : List Int) (maxOps : Nat) :
    List Nat → Nat → List Nat → Bool → Bool → Int →
      Except VerifyError (Bool × Bool × Int × Nat)
  | [], ops, _, bad, ovf, acc => .ok (bad, ovf, acc, ops)
  | i :: rest, ops, seen, bad, ovf, acc =>
    if maxOps < ops + 1 then .error .budgetExceeded
    else if i ∈ seen ∨ elems.length ≤ i then
      verifyLoop elems maxOps rest (ops + 1) (i :: seen) true ovf acc
    else
      match checkedAdd acc (elems.getD i 0) with
      | some s => verifyLoop elems maxOps rest (ops + 1) (i :: seen) bad ovf s
      | none => verifyLoop elems maxOps rest (ops + 1) (i :: seen) bad true acc

/-- Modelled from the spec: `verify::verify_solution` (spec section 4.4;
`verify.rs` is absent from the repository snapshot).  Structural checks —
empty element list, element count outside the tier's permitted range —
return an invalid-input error; then the single index walk runs under the
operation budget; the solution is valid iff no duplicate or out-of-range
index was found, no overflow occurred, and the accumulated sum equals the
target. -/
def verify_solution (p : Problem) (s : Solution) (b : VerifyBudget) :
    Except VerifyError VerifyResult :=
  if p.elements.isEmpty then .error .invalidInput
  else if p.elements.length < p.tier.element_range.1 ∨
      p.tier.element_range.2 < p.elements.length then .error .invalidInput
  else
    match verifyLoop p.elements b.max_ops s.indices 0 [] false false 0 with
    | .error e => .error e
    | .ok (bad, ovf, acc, ops) =>
      .ok { valid := !bad && !ovf && decide (acc = p.target), ops_used := ops }

/-! ## Codec layer -/

/-- The recognized codec version (`CODEC_VERSION` in `types.rs`,
mirrored by `coinjecture_codec_version` in `ffi.rs`). -/
def CODEC_VERSION : Nat := 1

/-- Modelled from the spec: the bound on `extra_data` length ("bounded to
prevent header bloat", spec section 3); the exact bound is not fixed by
the spec, the concrete value here is representative. -/
def MAX_EXTRA_DATA : Nat := 1024

/-- The canonical block header (from `types.rs`, field-for-field as used
by the tests, the vector generator and the FFI layer).  The 32-byte
fields are byte lists; scalar widths are tracked by `validHeader`. -/
structure BlockHeader where
  codec_version : Nat
  block_index : Nat
  timestamp : Int
  parent_hash : List Nat
  merkle_root : List Nat
  miner_address : List Nat
  commitment : List Nat
  difficulty_target : Nat
  nonce : Nat
  extra_data : List Nat
  deriving DecidableEq, Repr

/-- A structurally valid header: recognized codec version, scalar fields
within their fixed widths, 32-byte hash fields of byte values, and
bounded `extra_data` of byte values (spec section 3 invariants). -/
def validHeader (h : BlockHeader) : Prop :=
  h.codec_version = CODEC_VERSION ∧
  h.block_index < 2 ^ 64 ∧
  -(2 ^ 63) ≤ h.timestamp ∧ h.timestamp < 2 ^ 63 ∧
  h.parent_hash.length = 32 ∧ isBytes h.parent_hash ∧
  h.merkle_root.length = 32 ∧ isBytes h.merkle_root ∧
  h.miner_address.length = 32 ∧ isBytes h.miner_address ∧
  h.commitment.length = 32 ∧ isBytes h.commitment ∧
  h.difficulty_target < 2 ^ 64 ∧
  h.nonce < 2 ^ 64 ∧
  h.extra_data.length ≤ MAX_EXTRA_DATA ∧ isBytes h.extra_data

/-- Codec error taxonomy: truncated fields, unrecognized version,
trailing bytes, an `extra_data` length prefix inconsistent with the
remaining byte count, or an over-long `extra_data` (spec sections 4.3
and 7). -/
inductive CodecError where
  | truncated
  | badVersion
  | trailingBytes
  | lengthMismatch
  | extraDataTooLong
  deriving DecidableEq, Repr

/-- Modelled from the spec: the fixed-width, fixed-order part of the
canonical encoding — version byte, big-endian 64-bit block index,
two's-complement 64-bit timestamp, the four 32-byte hash fields,
big-endian 64-bit difficulty target and nonce — 161 bytes in total
(spec section 4.3). -/
def headerFixedPart (h : BlockHeader) : List Nat :=
  natToBeBytes 1 h.codec_version ++
  natToBeBytes 8 h.block_index ++
  natToBeBytes 8 (intToU64 h.timestamp) ++
  h.parent_hash ++
  h.merkle_root ++
  h.miner_address ++
  h.commitment ++
  natToBeBytes 8 h.difficulty_target ++
  natToBeBytes 8 h.nonce

/-- Modelled from the spec: `codec::encode_block_header` — the canonical
encoding, a single fixed field order with fixed-width scalars and
`extra_data` as an explicit 32-bit length prefix followed by its bytes;
an over-long `extra_data` cannot be canonically encoded (spec section
4.3; `codec.rs` is absent from the repository snapshot). -/
def encode_block_header (h : BlockHeader) : Except CodecError (List Nat) :=
  if MAX_EXTRA_DATA < h.extra_data.length then .error .extraDataTooLong
  else .ok (headerFixedPart h ++ natToBeBytes 4 h.extra_data.length ++ h.extra_data)

/-- Read exactly `n` bytes from the front of the input, returning the
bytes read and the remainder; fails when fewer than `n` remain. -/
def readBytes (n : Nat) (bs : List Nat) : Option (List Nat × List Nat) :=
  if n ≤ bs.length then some (bs.take n, bs.drop n) else none

/-- Modelled from the spec: `codec::decode_block` — the strict decoder
(spec section 4.3; `codec.rs` is absent from the repository snapshot).
Fields are read in the canonical order; a truncated field, an
unrecognized codec version, an `extra_data` length prefix inconsistent
with the remaining byte count, an over-long declared `extra_data`, or
trailing bytes after the declared `extra_data` are decode errors; the
decoder never accepts partially valid input. -/
def decode_block_header (bytes : List Nat) : Except CodecError BlockHeader :=
  match readBytes 1 bytes with
  | none => .error .truncated
  | some (vb, r1) =>
    if beBytesToNat vb ≠ CODEC_VERSION then .error .badVersion
    else match readBytes 8 r1 with
    | none => .error .truncated
    | some (bib, r2) =>
      match readBytes 8 r2 with
      | none => .error .truncated
      | some (tsb, r3) =>
        match readBytes 32 r3 with
        | none => .error .truncated
        | some (phb, r4) =>
          match readBytes 32 r4 with
          | none => .error .truncated
          | some (mrb, r5) =>
            match readBytes 32 r5 with
            | none => .error .truncated
            | some (mab, r6) =>
              match readBytes 32 r6 with
              | none => .error .truncated
              | some (cmb, r7) =>
                match readBytes 8 r7 with
                | none => .error .truncated
                | some (dtb, r8) =>
                  match readBytes 8 r8 with
                  | none => .error .truncated
                  | some (nnb, r9) =>
                    match readBytes 4 r9 with
                    | none => .error .truncated
                    | some (elb, r10) =>
                      if MAX_EXTRA_DATA < beBytesToNat elb then .error .extraDataTooLong
                      else match readBytes (beBytesToNat elb) r10 with
                      | none => .error .lengthMismatch
                      | some (edb, rest) =>
                        if rest.isEmpty then
                          .ok { codec_version := CODEC_VERSION
                                block_index := beBytesToNat bib
                                timestamp := u64ToInt (beBytesToNat tsb)
                                parent_hash := phb
                                merkle_root := mrb
                                miner_address := mab
                                commitment := cmb
                                difficulty_target := beBytesToNat dtb
                                nonce := beBytesToNat nnb
                                extra_data := edb }
                        else .error .trailingBytes

/-- Modelled from the spec: `codec::compute_header_hash`, defined as the
hash of the canonical encoding; it fails exactly when the header cannot
be canonically encoded (spec section 4.3). -/
def compute_header_hash (h : BlockHeader) : Except CodecError (List Nat) :=
  (encode_block_header h).map sha256

/-! ## FFI surface (from `ffi.rs`)

Pointer arguments are modelled as `Option` values (`none` standing for a
null pointer); a `(pointer, length)` slice argument is modelled as the
list the caller's buffer holds, the separate length field selecting how
much of it the call reads, exactly as `slice::from_raw_parts` does.  An
output buffer is modelled by a flag saying whether its pointer is null,
the function returning the written value alongside the result code. -/

/-- Result codes for C FFI functions (from `ffi.rs`). -/
inductive CoinjResult where
  | Ok
  | ErrorInvalidInput
  | ErrorOutOfMemory
  | ErrorVerificationFailed
  | ErrorEncoding
  | ErrorInternal
  deriving DecidableEq, Repr

/-- C-compatible block header (from `ffi.rs`): `codec_version`,
`block_index`, `difficulty_target` and `extra_data_len` are C `uint`
(32-bit) fields; `extra_data` is a possibly-null byte pointer. -/
structure BlockHeaderFFI where
  codec_version : Nat
  block_index : Nat
  timestamp : Int
  parent_hash : List Nat
  merkle_root : List Nat
  miner_address : List Nat
  commitment : List Nat
  difficulty_target : Nat
  nonce : Nat
  extra_data_len : Nat
  extra_data : Option (List Nat)
  deriving DecidableEq, Repr

/-- C-compatible subset-sum problem (from `ffi.rs`); the tier is a raw
C `uint` tag and `elements` a possibly-null pointer whose pointee list
stands for the caller's buffer of `elements_len` entries. -/
structure SubsetSumProblemFFI where
  problem_type : Nat
  tier : Nat
  elements : Option (List Int)
  target : Int
  timestamp : Int
  deriving DecidableEq, Repr

/-- C-compatible subset-sum solution (from `ffi.rs`). -/
structure SubsetSumSolutionFFI where
  indices : Option (List Nat)
  timestamp : Int
  deriving DecidableEq, Repr

/-- C-compatible verification budget (from `ffi.rs`; all three fields are
C `uint`). -/
structure VerifyBudgetFFI where
  max_ops : Nat
  max_duration_ms : Nat
  max_memory_bytes : Nat
  deriving DecidableEq, Repr

/-- `coinjecture_sha256_hash` (from `ffi.rs`): null input or output
pointer gives `ErrorInvalidInput`; otherwise the digest of the input is
written and the call returns `Ok`. -/
def coinjecture_sha256_hash (input : Option (List Nat)) (outIsNull : Bool) :
    CoinjResult × Option (List Nat) :=
  match input with
  | none => (.ErrorInvalidInput, none)
  | some data =>
    if outIsNull then (.ErrorInvalidInput, none)
    else (.Ok, some (sha256 data))

/-- `coinjecture_compute_header_hash` (from `ffi.rs`): null header or
output pointer gives `ErrorInvalidInput`, as does a null `extra_data`
pointer with a positive declared length; otherwise the FFI header is
converted to the internal header — truncating `codec_version` to 8 bits
with an `as u8` cast and widening the 32-bit `block_index` and
`difficulty_target` with `as u64` casts — and its canonical hash is
computed, an encoding failure reporting `ErrorEncoding`. -/
def coinjecture_compute_header_hash (header : Option BlockHeaderFFI)
    (outIsNull : Bool) : CoinjResult × Option (List Nat) :=
  match header with
  | none => (.ErrorInvalidInput, none)
  | some h =>
    if outIsNull then (.ErrorInvalidInput, none)
    else if 0 < h.extra_data_len ∧ h.extra_data = none then
      (.ErrorInvalidInput, none)
    else
      let extra := if 0 < h.extra_data_len then
        (h.extra_data.getD []).take h.extra_data_len else []
      let internal : BlockHeader :=
        { codec_version := h.codec_version % 256
          block_index := h.block_index
          timestamp := h.timestamp
          parent_hash := h.parent_hash
          merkle_root := h.merkle_root
          miner_address := h.miner_address
          commitment := h.commitment
          difficulty_target := h.difficulty_target
          nonce := h.nonce
          extra_data := extra }
      match compute_header_hash internal with
      | .ok hash => (.Ok, some hash)
      | .error _ => (.ErrorEncoding, none)

/-- `coinjecture_compute_merkle_root` (from `ffi.rs`): only a null
output pointer gives `ErrorInvalidInput`; a null `tx_hashes` pointer or a
zero `tx_count` is folded into the empty leaf list, and the computed root
is written with result `Ok`. -/
def coinjecture_compute_merkle_root (txHashes : Option (List (List Nat)))
    (txCount : Nat) (outIsNull : Bool) : CoinjResult × Option (List Nat) :=
  if outIsNull then (.ErrorInvalidInput, none)
  else
    let hashes : List (List Nat) :=
      if txCount = 0 ∨ txHashes = none then []
      else (txHashes.getD []).take txCount
    (.Ok, some (compute_merkle_root hashes))

/-- Tier tag decoding used by `coinjecture_verify_subset_sum` (from
`ffi.rs`): tags 0-4 name the five tiers in order, anything else is
rejected. -/
def decodeTierTag : Nat → Option HardwareTier
  | 0 => some .Mobile
  | 1 => some .Desktop
  | 2 => some .Workstation
  | 3 => some .Server
  | 4 => some .Cluster
  | _ => none

/-- `coinjecture_verify_subset_sum` (from `ffi.rs`): any null argument
pointer, a null elements or indices pointer, a zero `elements_len`, or an
unrecognized tier tag gives `ErrorInvalidInput`; otherwise
`verify_solution` runs on the converted inputs, an `Ok` result writing
`result.valid` to `out_valid` and returning `Ok`, and an `Err` returning
`ErrorVerificationFailed`. -/
def coinjecture_verify_subset_sum (problem : Option SubsetSumProblemFFI)
    (solution : Option SubsetSumSolutionFFI) (budget : Option VerifyBudgetFFI)
    (outValidIsNull : Bool) : CoinjResult × Option Bool :=
  match problem, solution, budget with
  | some p, some s, some b =>
    if outValidIsNull then (.ErrorInvalidInput, none)
    else match p.elements, s.indices with
    | some elems, some idxs =>
      if elems.isEmpty then (.ErrorInvalidInput, none)
      else match decodeTierTag p.tier with
      | none => (.ErrorInvalidInput, none)
      | some tier =>
        let internalProblem : Problem :=
          { problem_type := .SubsetSum
            tier := tier
            elements := elems
            target := p.target
            timestamp := p.timestamp }
        let internalSolution : Solution :=
          { indices := idxs, timestamp := s.timestamp }
        let internalBudget : VerifyBudget :=
          { max_ops := b.max_ops
            max_duration_ms := b.max_duration_ms
            max_memory_bytes := b.max_memory_bytes }
        match verify_solution internalProblem internalSolution internalBudget with
        | .ok result => (.Ok, some result.valid)
        | .error _ => (.ErrorVerificationFailed, none)
    | _, _ => (.ErrorInvalidInput, none)
  | _, _, _ => (.ErrorInvalidInput, none)

/-! ## Genesis artifacts (from `tests/golden_tests.rs` and
`bin/generate-vectors.rs`) -/

/-- The genesis timestamp asserted frozen by `test_golden_genesis_block`
in `tests/golden_tests.rs`. -/
def goldenGenesisTimestamp : Int := 1609459200

/-- The genesis difficulty target asserted frozen by
`test_golden_genesis_block` in `tests/golden_tests.rs`. -/
def goldenGenesisDifficulty : Nat := 1000

/-- The genesis nonce asserted frozen by `test_golden_genesis_block` in
`tests/golden_tests.rs`. -/
def goldenGenesisNonce : Nat := 0

/-- The genesis header built by the golden-vector generator
(`bin/generate-vectors.rs`, vector 19). -/
def generateVectorsGenesisHeader : BlockHeader :=
  { codec_version := 1
    block_index := 0
    timestamp := 1704067200
    parent_hash := List.replicate 32 0
    merkle_root := List.replicate 32 0
    miner_address := List.replicate 32 0
    commitment := List.replicate 32 0
    difficulty_target := 100
    nonce := 0
    extra_data := [] }

/-! ## Concrete instances used by witnesses and counterexamples -/

/-- The concrete problem of spec scenario (4): elements `[3, 7, 11]`,
target `18`. -/
def scenarioProblem : Problem :=
  { problem_type := .SubsetSum
    tier := .Mobile
    elements := [3, 7, 11]
    target := 18
    timestamp := 0 }

/-- A permissive concrete budget for the scenario runs. -/
def scenarioBudget : VerifyBudget :=
  { max_ops := 1000, max_duration_ms := 1000, max_memory_bytes := 1048576 }

/-- A concrete structurally valid header exercising a nonempty
`extra_data`. -/
def sampleHeader : BlockHeader :=
  { codec_version := 1
    block_index := 5
    timestamp := -7
    parent_hash := List.replicate 32 1
    merkle_root := List.replicate 32 2
    miner_address := List.replicate 32 3
    commitment := List.replicate 32 4
    difficulty_target := 9
    nonce := 11
    extra_data := [1, 2, 3] }

/-- A concrete FFI header with `codec_version = 1`. -/
def ffiHeaderV1 : BlockHeaderFFI :=
  { codec_version := 1
    block_index := 3
    timestamp := 99
    parent_hash := List.replicate 32 5
    merkle_root := List.replicate 32 6
    miner_address := List.replicate 32 7
    commitment := List.replicate 32 8
    difficulty_target := 100
    nonce := 42
    extra_data_len := 0
    extra_data := none }

/-- The same concrete FFI header except `codec_version = 257`. -/
def ffiHeaderV257 : BlockHeaderFFI :=
  { codec_version := 257
    block_index := 3
    timestamp := 99
    parent_hash := List.replicate 32 5
    merkle_root := List.replicate 32 6
    miner_address := List.replicate 32 7
    commitment := List.replicate 32 8
    difficulty_target := 100
    nonce := 42
    extra_data_len := 0
    extra_data := none }

/-! ## Byte-level lemmas -/

theorem natToBeBytes_length (w n : Nat) : (natToBeBytes w n).length = w := by
  induction w generalizing n with
  | zero => rfl
  | succ w ih => simp [natToBeBytes, ih]

theorem natToBeBytes_isBytes (w n : Nat) : isBytes (natToBeBytes w n) := by
  induction w generalizing n with
  | zero => intro b hb; simp [natToBeBytes] at hb
  | succ w ih =>
    intro b hb
    simp only [natToBeBytes, List.mem_append, List.mem_singleton] at hb
    rcases hb with hb | hb
    · exact ih _ b hb
    · subst hb; exact Nat.mod_lt _ (by norm_num)

theorem beBytesToNat_natToBeBytes (w n : Nat) (hn : n < 256 ^ w) :
    beBytesToNat (natToBeBytes w n) = n := by
  induction w generalizing n with
  | zero => simp [natToBeBytes, beBytesToNat]; omega
  | succ w ih =>
    have hdiv : n / 256 < 256 ^ w := by
      apply Nat.div_lt_of_lt_mul
      calc n < 256 ^ (w + 1) := hn
        _ = 256 * 256 ^ w := by ring
    simp only [natToBeBytes, beBytesToNat, List.foldl_append, List.foldl_cons,
      List.foldl_nil]
    have := ih (n / 256) hdiv
    simp only [beBytesToNat] at this
    rw [this]
    omega

theorem natToBeBytes_beBytesToNat (w : Nat) (bs : List Nat)
    (hl : bs.length = w) (hb : isBytes bs) :
    natToBeBytes w (beBytesToNat bs) = bs := by
  induction w generalizing bs with
  | zero => simp_all [natToBeBytes, List.length_eq_zero]
  | succ w ih =>
    rcases bs.eq_nil_or_concat with rfl | ⟨bs', b, rfl⟩
    · simp at hl
    · simp only [List.concat_eq_append] at hl hb ⊢
      have hl' : bs'.length = w := by
        simpa using hl
      have hb' : isBytes bs' := fun x hx => hb x (by simp [hx])
      have hbb : b < 256 := hb b (by simp)
      have hfold : beBytesToNat (bs' ++ [b]) = beBytesToNat bs' * 256 + b := by
        simp [beBytesToNat, List.foldl_append]
      simp only [natToBeBytes, hfold]
      have hdiv : (beBytesToNat bs' * 256 + b) / 256 = beBytesToNat bs' := by
        omega
      have hmod : (beBytesToNat bs' * 256 + b) % 256 = b := by
        omega
      rw [hdiv, hmod, ih bs' hl' hb']

theorem beBytesToNat_lt (w : Nat) (bs : List Nat) (hl : bs.length = w)
    (hb : isBytes bs) : beBytesToNat bs < 256 ^ w := by
  induction w generalizing bs with
  | zero =>
    rw [List.length_eq_zero] at hl
    subst hl; simp [beBytesToNat]
  | succ w ih =>
    rcases bs.eq_nil_or_concat with rfl | ⟨bs', b, rfl⟩
    · simp at hl
    · simp only [List.concat_eq_append] at hl hb ⊢
      have hl' : bs'.length = w := by simpa using hl
      have hb' : isBytes bs' := fun x hx => hb x (by simp [hx])
      have hbb : b < 256 := hb b (by simp)
      have hfold : beBytesToNat (bs' ++ [b]) = beBytesToNat bs' * 256 + b := by
        simp [beBytesToNat, List.foldl_append]
      have := ih bs' hl' hb'
      rw [hfold]
      calc beBytesToNat bs' * 256 + b < (beBytesToNat bs' + 1) * 256 := by omega
        _ ≤ 256 ^ w * 256 := by
          apply Nat.mul_le_mul_right
          omega
        _ = 256 ^ (w + 1) := by ring

theorem u64ToInt_intToU64 (t : Int) (h1 : -(2 ^ 63) ≤ t) (h2 : t < 2 ^ 63) :
    u64ToInt (intToU64 t) = t := by
  unfold u64ToInt intToU64
  have hmod : t % (2 ^ 64 : Nat) = t % (18446744073709551616 : Int) := by norm_num
  rw [hmod]
  have h63 : (2 : Int) ^ 63 = 9223372036854775808 := by norm_num
  rw [h63] at h1 h2
  split <;> rename_i hsp <;> [skip; skip] <;> omega

theorem intToU64_u64ToInt (n : Nat) (h : n < 2 ^ 64) :
    intToU64 (u64ToInt n) = n := by
  unfold u64ToInt intToU64
  have h64 : (2 : Nat) ^ 64 = 18446744073709551616 := by norm_num
  rw [h64] at h ⊢
  split <;> rename_i hsp <;> omega

/-! ## Parsing lemmas -/

theorem readBytes_append (n : Nat) (xs rest : List Nat) (hx : xs.length = n) :
    readBytes n (xs ++ rest) = some (xs, rest) := by
  unfold readBytes
  rw [if_pos (by simp [hx])]
  rw [List.take_left' hx, List.drop_left' hx]

theorem readBytes_eq (n : Nat) (bs x r : List Nat)
    (h : readBytes n bs = some (x, r)) :
    bs = x ++ r ∧ x.length = n ∧ n ≤ bs.length := by
  unfold readBytes at h
  split at h
  · rename_i hle
    injection h with h'
    injection h' with h1 h2
    subst h1; subst h2
    exact ⟨(List.take_append_drop n bs).symm, List.length_take_of_le hle, hle⟩
  · exact absurd h (by simp)

theorem headerFixedPart_length (h : BlockHeader) (hv : validHeader h) :
    (headerFixedPart h).length = 161 := by
  obtain ⟨_, _, _, _, hph, _, hmr, _, hma, _, hcm, _, _, _, _, _⟩ := hv
  simp [headerFixedPart, natToBeBytes_length, hph, hmr, hma, hcm]

theorem encode_ok_of_valid (h : BlockHeader) (hv : validHeader h) :
    encode_block_header h =
      .ok (headerFixedPart h ++ natToBeBytes 4 h.extra_data.length ++ h.extra_data) := by
  obtain ⟨_, _, _, _, _, _, _, _, _, _, _, _, _, _, hed, _⟩ := hv
  unfold encode_block_header
  rw [if_neg (by omega)]

theorem encode_length (h : BlockHeader) (hv : validHeader h) (bs : List Nat)
    (he : encode_block_header h = .ok bs) :
    bs.length = 165 + h.extra_data.length := by
  rw [encode_ok_of_valid h hv] at he
  injection he with he
  subst he
  simp [headerFixedPart_length h hv, natToBeBytes_length]
  omega

theorem encode_isBytes (h : BlockHeader) (hv : validHeader h) (bs : List Nat)
    (he : encode_block_header h = .ok bs) : isBytes bs := by
  rw [encode_ok_of_valid h hv] at he
  obtain ⟨_, _, _, _, _, hphb, _, hmrb, _, hmab, _, hcmb, _, _, _, hedb⟩ := hv
  injection he with he
  subst he
  intro b hb
  simp only [headerFixedPart, List.append_assoc, List.mem_append] at hb
  rcases hb with hb | hb | hb | hb | hb | hb | hb | hb | hb | hb | hb
  all_goals first
    | exact natToBeBytes_isBytes _ _ b hb
    | exact hphb b hb
    | exact hmrb b hb
    | exact hmab b hb
    | exact hcmb b hb
    | exact hedb b hb

theorem intToU64_lt (t : Int) : intToU64 t < 2 ^ 64 := by
  unfold intToU64
  have h0 : (0:Int) ≤ t % (18446744073709551616 : Int) := by omega
  have h1 : t % (18446744073709551616 : Int) < 18446744073709551616 := by omega
  have h2 : t % ((2:Nat) ^ 64 : Nat) = t % (18446744073709551616 : Int) := by norm_num
  rw [h2]
  omega

theorem decode_encode_with_tail (h : BlockHeader) (hv : validHeader h) (tail : List Nat) :
    decode_block_header
        (headerFixedPart h ++ natToBeBytes 4 h.extra_data.length ++ (h.extra_data ++ tail)) =
      if tail.isEmpty then .ok h else .error .trailingBytes := by
  obtain ⟨hcv, hbi, hts1, hts2, hph, _, hmr, _, hma, _, hcm, _, hdt, hnn, hed, _⟩ := hv
  have hbir : beBytesToNat (natToBeBytes 8 h.block_index) = h.block_index :=
    beBytesToNat_natToBeBytes 8 _ (by norm_num; omega)
  have htsr : u64ToInt (beBytesToNat (natToBeBytes 8 (intToU64 h.timestamp))) = h.timestamp := by
    rw [beBytesToNat_natToBeBytes 8 _ (by have := intToU64_lt h.timestamp; norm_num; omega)]
    exact u64ToInt_intToU64 _ hts1 hts2
  have hdtr : beBytesToNat (natToBeBytes 8 h.difficulty_target) = h.difficulty_target :=
    beBytesToNat_natToBeBytes 8 _ (by norm_num; omega)
  have hnnr : beBytesToNat (natToBeBytes 8 h.nonce) = h.nonce :=
    beBytesToNat_natToBeBytes 8 _ (by norm_num; omega)
  have hlenr : beBytesToNat (natToBeBytes 4 h.extra_data.length) = h.extra_data.length :=
    beBytesToNat_natToBeBytes 4 _ (by simp [MAX_EXTRA_DATA] at hed; norm_num; omega)
  have hver : beBytesToNat (natToBeBytes 1 CODEC_VERSION) = CODEC_VERSION := by decide
  simp only [decode_block_header, headerFixedPart, List.append_assoc]
  rw [readBytes_append 1 _ _ (natToBeBytes_length 1 _)]
  simp only [hcv, hver, ne_eq, not_true_eq_false, if_false]
  rw [readBytes_append 8 _ _ (natToBeBytes_length 8 _)]
  simp only []
  rw [readBytes_append 8 _ _ (natToBeBytes_length 8 _)]
  simp only []
  rw [readBytes_append 32 _ _ hph]
  simp only []
  rw [readBytes_append 32 _ _ hmr]
  simp only []
  rw [readBytes_append 32 _ _ hma]
  simp only []
  rw [readBytes_append 32 _ _ hcm]
  simp only []
  rw [readBytes_append 8 _ _ (natToBeBytes_length 8 _)]
  simp only []
  rw [readBytes_append 8 _ _ (natToBeBytes_length 8 _)]
  simp only []
  rw [readBytes_append 4 _ _ (natToBeBytes_length 4 _)]
  simp only [hlenr]
  rw [if_neg (by omega)]
  rw [readBytes_append h.extra_data.length _ _ rfl]
  simp only [hbir, htsr, hdtr, hnnr, ← hcv]

theorem decode_encode_of_valid (h : BlockHeader) (hv : validHeader h) (bs : List Nat)
    (he : encode_block_header h = .ok bs) : decode_block_header bs = .ok h := by
  rw [encode_ok_of_valid h hv] at he
  injection he with he
  subst he
  have := decode_encode_with_tail h hv []
  simpa using this

theorem drop_append_of_le (A B : List Nat) (n : Nat) (h : A.length ≤ n) :
    (A ++ B).drop n = B.drop (n - A.length) := by
  rw [List.drop_append_eq_append_drop, List.drop_eq_nil_of_le h, List.nil_append]

theorem drop_append_len (A B : List Nat) (n k : Nat) (hA : A.length = k)
    (h : k ≤ n) : (A ++ B).drop n = B.drop (n - k) := by
  subst hA
  exact drop_append_of_le A B n h

theorem decode_ok_shape (bytes : List Nat) (h : BlockHeader)
    (hd : decode_block_header bytes = .ok h) :
    bytes.length = 165 + h.extra_data.length ∧
      h.extra_data.length = beBytesToNat ((bytes.drop 161).take 4) := by
  unfold decode_block_header at hd
  split at hd
  · exact absurd hd (by simp)
  rename_i vb r1 heq1
  split at hd
  · exact absurd hd (by simp)
  split at hd
  · exact absurd hd (by simp)
  rename_i bib r2 heq2
  split at hd
  · exact absurd hd (by simp)
  rename_i tsb r3 heq3
  split at hd
  · exact absurd hd (by simp)
  rename_i phb r4 heq4
  split at hd
  · exact absurd hd (by simp)
  rename_i mrb r5 heq5
  split at hd
  · exact absurd hd (by simp)
  rename_i mab r6 heq6
  split at hd
  · exact absurd hd (by simp)
  rename_i cmb r7 heq7
  split at hd
  · exact absurd hd (by simp)
  rename_i dtb r8 heq8
  split at hd
  · exact absurd hd (by simp)
  rename_i nnb r9 heq9
  split at hd
  · exact absurd hd (by simp)
  rename_i elb r10 heq10
  split at hd
  · exact absurd hd (by simp)
  split at hd
  · exact absurd hd (by simp)
  rename_i edb rest heq11
  split at hd
  case isFalse => exact absurd hd (by simp)
  rename_i hrest
  injection hd with hrec
  obtain ⟨e1, l1, _⟩ := readBytes_eq _ _ _ _ heq1
  obtain ⟨e2, l2, _⟩ := readBytes_eq _ _ _ _ heq2
  obtain ⟨e3, l3, _⟩ := readBytes_eq _ _ _ _ heq3
  obtain ⟨e4, l4, _⟩ := readBytes_eq _ _ _ _ heq4
  obtain ⟨e5, l5, _⟩ := readBytes_eq _ _ _ _ heq5
  obtain ⟨e6, l6, _⟩ := readBytes_eq _ _ _ _ heq6
  obtain ⟨e7, l7, _⟩ := readBytes_eq _ _ _ _ heq7
  obtain ⟨e8, l8, _⟩ := readBytes_eq _ _ _ _ heq8
  obtain ⟨e9, l9, _⟩ := readBytes_eq _ _ _ _ heq9
  obtain ⟨e10, l10, _⟩ := readBytes_eq _ _ _ _ heq10
  obtain ⟨e11, l11, _⟩ := readBytes_eq _ _ _ _ heq11
  rw [List.isEmpty_iff] at hrest
  subst hrec
  subst hrest
  constructor
  · rw [e1, e2, e3, e4, e5, e6, e7, e8, e9, e10, e11]
    simp only [List.length_append, l1, l2, l3, l4, l5, l6, l7, l8, l9, l10, l11,
      List.length_nil]
    omega
  · rw [e1, e2, e3, e4, e5, e6, e7, e8, e9, e10]
    rw [drop_append_len _ _ _ _ l1 (by norm_num)]
    rw [drop_append_len _ _ _ _ l2 (by norm_num)]
    rw [drop_append_len _ _ _ _ l3 (by norm_num)]
    rw [drop_append_len _ _ _ _ l4 (by norm_num)]
    rw [drop_append_len _ _ _ _ l5 (by norm_num)]
    rw [drop_append_len _ _ _ _ l6 (by norm_num)]
    rw [drop_append_len _ _ _ _ l7 (by norm_num)]
    rw [drop_append_len _ _ _ _ l8 (by norm_num)]
    rw [drop_append_len _ _ _ _ l9 (by norm_num)]
    norm_num
    rw [List.take_left' l10]
    exact l11

set_option maxRecDepth 4000 in
theorem decode_reject_truncated (bytes : List Nat) (h : BlockHeader) (n : Nat)
    (hd : decode_block_header bytes = .ok h) (hn : n < bytes.length) :
    ∀ h', decode_block_header (bytes.take n) ≠ .ok h' := by
  intro h' hd'
  obtain ⟨hl, hlen⟩ := decode_ok_shape bytes h hd
  obtain ⟨hl', hlen'⟩ := decode_ok_shape _ h' hd'
  rw [List.length_take] at hl'
  have hmin : min n bytes.length = n := by omega
  rw [hmin] at hl'
  by_cases hcase : n < 165
  · omega
  · have hseg : ((bytes.take n).drop 161).take 4 = (bytes.drop 161).take 4 := by
      rw [List.drop_take, List.take_take]
      congr 1
      omega
    rw [hseg, ← hlen] at hlen'
    omega

theorem verifyLoop_ok_ops (elems : List Int) (maxOps : Nat) (idxs : List Nat) :
    ∀ ops seen bad ovf acc b o a n',
      verifyLoop elems maxOps idxs ops seen bad ovf acc = .ok (b, o, a, n') →
      n' = ops + idxs.length ∧ n' ≤ max ops maxOps := by
  induction idxs with
  | nil =>
    intro ops seen bad ovf acc b o a n' h
    simp only [verifyLoop] at h
    injection h with h
    injection h with h1 h
    injection h with h2 h
    injection h with h3 h4
    subst h4
    simp
  | cons i rest ih =>
    intro ops seen bad ovf acc b o a n' h
    simp only [verifyLoop] at h
    split at h
    · exact absurd h (by simp)
    rename_i hbud
    split at h
    · obtain ⟨h1, h2⟩ := ih _ _ _ _ _ _ _ _ _ h
      constructor
      · simp [h1]; omega
      · omega
    · split at h
      · obtain ⟨h1, h2⟩ := ih _ _ _ _ _ _ _ _ _ h
        constructor
        · simp [h1]; omega
        · omega
      · obtain ⟨h1, h2⟩ := ih _ _ _ _ _ _ _ _ _ h
        constructor
        · simp [h1]; omega
        · omega

theorem verifyLoop_error (elems : List Int) (maxOps : Nat) (idxs : List Nat) :
    ∀ ops seen bad ovf acc e,
      verifyLoop elems maxOps idxs ops seen bad ovf acc = .error e →
      e = .budgetExceeded ∧ maxOps < ops + idxs.length := by
  induction idxs with
  | nil =>
    intro ops seen bad ovf acc e h
    simp only [verifyLoop] at h
    exact absurd h (by simp)
  | cons i rest ih =>
    intro ops seen bad ovf acc e h
    simp only [verifyLoop] at h
    split at h
    · rename_i hbud
      injection h with h
      subst h
      simp
      omega
    · rename_i hbud
      split at h
      · obtain ⟨h1, h2⟩ := ih _ _ _ _ _ _ h
        exact ⟨h1, by simp; omega⟩
      · split at h
        · obtain ⟨h1, h2⟩ := ih _ _ _ _ _ _ h
          exact ⟨h1, by simp; omega⟩
        · obtain ⟨h1, h2⟩ := ih _ _ _ _ _ _ h
          exact ⟨h1, by simp; omega⟩

theorem verifyLoop_budget_error (elems : List Int) (maxOps : Nat) (idxs : List Nat) :
    ∀ ops seen bad ovf acc, ops ≤ maxOps → maxOps < ops + idxs.length →
      verifyLoop elems maxOps idxs ops seen bad ovf acc = .error .budgetExceeded := by
  induction idxs with
  | nil =>
    intro ops seen bad ovf acc h1 h2
    simp at h2
    omega
  | cons i rest ih =>
    intro ops seen bad ovf acc h1 h2
    simp only [verifyLoop]
    by_cases hbud : maxOps < ops + 1
    · rw [if_pos hbud]
    · rw [if_neg hbud]
      have hrec : ∀ bad' ovf' acc' seen',
          verifyLoop elems maxOps rest (ops + 1) seen' bad' ovf' acc' = .error .budgetExceeded := by
        intro bad' ovf' acc' seen'
        apply ih
        · omega
        · simp at h2; omega
      split
      · exact hrec _ _ _ _
      · split
        · exact hrec _ _ _ _
        · exact hrec _ _ _ _

theorem verifyLoop_ok_of_le (elems : List Int) (maxOps : Nat) (idxs : List Nat) :
    ∀ ops seen bad ovf acc, ops + idxs.length ≤ maxOps ∨ idxs = [] →
      ∃ out, verifyLoop elems maxOps idxs ops seen bad ovf acc = .ok out := by
  induction idxs with
  | nil =>
    intro ops seen bad ovf acc _
    exact ⟨(bad, ovf, acc, ops), rfl⟩
  | cons i rest ih =>
    intro ops seen bad ovf acc hle
    rcases hle with hle | hne
    · simp only [verifyLoop]
      rw [if_neg (by simp at hle; omega)]
      have hle' : ops + 1 + rest.length ≤ maxOps ∨ rest = [] := by
        left; simp at hle; omega
      split
      · exact ih _ _ _ _ _ hle'
      · split
        · exact ih _ _ _ _ _ hle'
        · exact ih _ _ _ _ _ hle'
    · exact absurd hne (by simp)

theorem verifyLoop_bad_prop (elems : List Int) (maxOps : Nat) (idxs : List Nat) :
    ∀ ops seen ovf acc b o a n',
      verifyLoop elems maxOps idxs ops seen true ovf acc = .ok (b, o, a, n') → b = true := by
  induction idxs with
  | nil =>
    intro ops seen ovf acc b o a n' h
    simp only [verifyLoop, Except.ok.injEq, Prod.mk.injEq] at h
    exact h.1.symm
  | cons i rest ih =>
    intro ops seen ovf acc b o a n' h
    simp only [verifyLoop] at h
    split at h
    · exact absurd h (by simp)
    split at h
    · exact ih _ _ _ _ _ _ _ _ h
    · split at h
      · exact ih _ _ _ _ _ _ _ _ h
      · exact ih _ _ _ _ _ _ _ _ h

theorem verifyLoop_bad_iff (elems : List Int) (maxOps : Nat) (idxs : List Nat) :
    ∀ ops seen bad ovf acc b o a n',
      verifyLoop elems maxOps idxs ops seen bad ovf acc = .ok (b, o, a, n') →
      (b = false ↔ bad = false ∧ idxs.Nodup ∧ ∀ i ∈ idxs, i < elems.length ∧ i ∉ seen) := by
  induction idxs with
  | nil =>
    intro ops seen bad ovf acc b o a n' h
    simp only [verifyLoop, Except.ok.injEq, Prod.mk.injEq] at h
    simp [← h.1]
  | cons i rest ih =>
    intro ops seen bad ovf acc b o a n' h
    simp only [verifyLoop] at h
    split at h
    · exact absurd h (by simp)
    split at h
    · rename_i hcond
      have hb := verifyLoop_bad_prop _ _ _ _ _ _ _ _ _ _ _ h
      subst hb
      simp only [Bool.true_eq_false, false_iff]
      rintro ⟨-, -, hall⟩
      have hi := hall i (List.mem_cons_self i rest)
      rcases hcond with hmem | hge
      · exact hi.2 hmem
      · omega
    · rename_i hcond
      rw [not_or] at hcond
      obtain ⟨hnmem, hlt⟩ := hcond
      rw [Nat.not_le] at hlt
      have key : ∀ bad' ovf' acc',
          verifyLoop elems maxOps rest (ops + 1) (i :: seen) bad' ovf' acc' = .ok (b, o, a, n') →
          (b = false ↔ bad' = false ∧ (i :: rest).Nodup ∧
            ∀ j ∈ i :: rest, j < elems.length ∧ j ∉ seen) := by
        intro bad' ovf' acc' h'
        rw [ih _ _ _ _ _ _ _ _ _ h']
        constructor
        · rintro ⟨hbad, hnd, hall⟩
          refine ⟨hbad, ?_, ?_⟩
          · rw [List.nodup_cons]
            refine ⟨fun hmem => (hall i hmem).2 (List.mem_cons_self i seen), hnd⟩
          · intro j hj
            rcases List.mem_cons.mp hj with rfl | hj'
            · exact ⟨hlt, hnmem⟩
            · exact ⟨(hall j hj').1, fun hs => (hall j hj').2 (List.mem_cons_of_mem _ hs)⟩
        · rintro ⟨hbad, hnd, hall⟩
          rw [List.nodup_cons] at hnd
          refine ⟨hbad, hnd.2, ?_⟩
          intro j hj
          refine ⟨(hall j (List.mem_cons_of_mem _ hj)).1, ?_⟩
          intro hmem
          rcases List.mem_cons.mp hmem with rfl | hs
          · exact hnd.1 hj
          · exact (hall j (List.mem_cons_of_mem _ hj)).2 hs
      split at h
      · exact key _ _ _ h
      · exact key _ _ _ h

theorem checkedFold_cons_some (acc x s : Int) (l : List Int)
    (h : checkedAdd acc x = some s) : checkedFold acc (x :: l) = checkedFold s l := by
  simp [checkedFold, h]

theorem checkedFold_cons_none (acc x : Int) (l : List Int)
    (h : checkedAdd acc x = none) : checkedFold acc (x :: l) = none := by
  simp [checkedFold, h]

theorem verifyLoop_sum (elems : List Int) (maxOps : Nat) (idxs : List Nat) :
    ∀ ops seen ovf acc o a n',
      verifyLoop elems maxOps idxs ops seen false ovf acc = .ok (false, o, a, n') →
      (ovf = true → o = true) ∧
      (ovf = false →
        (o = false ∧ checkedFold acc (idxs.map fun i => elems.getD i 0) = some a) ∨
        (o = true ∧ checkedFold acc (idxs.map fun i => elems.getD i 0) = none)) := by
  induction idxs with
  | nil =>
    intro ops seen ovf acc o a n' h
    simp only [verifyLoop, Except.ok.injEq, Prod.mk.injEq] at h
    obtain ⟨-, ho, ha, -⟩ := h
    subst ho; subst ha
    refine ⟨fun hv => hv, fun hv => ?_⟩
    left
    exact ⟨hv, rfl⟩
  | cons i rest ih =>
    intro ops seen ovf acc o a n' h
    simp only [verifyLoop] at h
    split at h
    · exact absurd h (by simp)
    split at h
    · have := verifyLoop_bad_prop _ _ _ _ _ _ _ _ _ _ _ h
      exact absurd this (by simp)
    · rename_i hcond
      split at h
      · rename_i s heqA
        have hrec := ih _ _ _ _ _ _ _ h
        refine ⟨hrec.1, fun hv => ?_⟩
        have h2 := hrec.2 hv
        simp only [List.map_cons]
        rw [checkedFold_cons_some _ _ _ _ heqA]
        exact h2
      · rename_i heqA
        have hrec := ih _ _ _ _ _ _ _ h
        have ho : o = true := hrec.1 rfl
        refine ⟨fun _ => ho, fun hv => ?_⟩
        right
        refine ⟨ho, ?_⟩
        simp only [List.map_cons]
        rw [checkedFold_cons_none _ _ _ heqA]

theorem verify_ok_ops (p : Problem) (s : Solution) (b : VerifyBudget) (r : VerifyResult)
    (h : verify_solution p s b = .ok r) :
    r.ops_used ≤ b.max_ops ∧ r.ops_used = s.indices.length := by
  unfold verify_solution at h
  split at h
  · exact absurd h (by simp)
  split at h
  · exact absurd h (by simp)
  split at h
  · exact absurd h (by simp)
  rename_i bad ovf acc ops heq
  injection h with h
  subst h
  obtain ⟨h1, h2⟩ := verifyLoop_ok_ops _ _ _ _ _ _ _ _ _ _ _ _ heq
  constructor
  · simpa using h2
  · simpa using h1

theorem verify_error_cases (p : Problem) (s : Solution) (b : VerifyBudget) (e : VerifyError)
    (h : verify_solution p s b = .error e) :
    (e = .invalidInput ∧ (p.elements = [] ∨ p.elements.length < p.tier.element_range.1 ∨
      p.tier.element_range.2 < p.elements.length)) ∨
    (e = .budgetExceeded ∧ b.max_ops < s.indices.length) := by
  unfold verify_solution at h
  split at h
  · rename_i hemp
    injection h with h
    subst h
    left
    exact ⟨rfl, Or.inl (List.isEmpty_iff.mp hemp)⟩
  split at h
  · rename_i hrange
    injection h with h
    subst h
    left
    exact ⟨rfl, Or.inr hrange⟩
  split at h
  · rename_i e' heq
    injection h with h
    subst h
    obtain ⟨h1, h2⟩ := verifyLoop_error _ _ _ _ _ _ _ _ _ heq
    right
    exact ⟨h1, by simpa using h2⟩
  · exact absurd h (by simp)

theorem verify_ok_of_budget (p : Problem) (s : Solution) (b : VerifyBudget)
    (hne : p.elements ≠ [])
    (hlo : p.tier.element_range.1 ≤ p.elements.length)
    (hhi : p.elements.length ≤ p.tier.element_range.2)
    (hbud : s.indices.length ≤ b.max_ops) :
    ∃ r, verify_solution p s b = .ok r := by
  unfold verify_solution
  rw [if_neg (by simpa using hne)]
  rw [if_neg (by omega)]
  obtain ⟨⟨bad, ovf, acc, ops⟩, hout⟩ :=
    verifyLoop_ok_of_le p.elements b.max_ops s.indices 0 [] false false 0 (by omega)
  rw [hout]
  exact ⟨_, rfl⟩

theorem verify_budget_exceeded (p : Problem) (s : Solution) (b : VerifyBudget)
    (hne : p.elements ≠ [])
    (hlo : p.tier.element_range.1 ≤ p.elements.length)
    (hhi : p.elements.length ≤ p.tier.element_range.2)
    (hbud : b.max_ops < s.indices.length) :
    verify_solution p s b = .error .budgetExceeded := by
  unfold verify_solution
  rw [if_neg (by simpa using hne)]
  rw [if_neg (by omega)]
  rw [verifyLoop_budget_error p.elements b.max_ops s.indices 0 [] false false 0
    (by omega) (by omega)]

theorem verify_valid_iff (p : Problem) (s : Solution) (b : VerifyBudget) (r : VerifyResult)
    (h : verify_solution p s b = .ok r) :
    (r.valid = true ↔ s.indices.Nodup ∧ (∀ i ∈ s.indices, i < p.elements.length) ∧
      checkedSumAt p.elements s.indices = some p.target) := by
  unfold verify_solution at h
  split at h
  · exact absurd h (by simp)
  split at h
  · exact absurd h (by simp)
  split at h
  · exact absurd h (by simp)
  rename_i bad ovf acc ops heq
  injection h with h
  subst h
  simp only [Bool.and_eq_true, Bool.not_eq_true', decide_eq_true_eq]
  have hbad := verifyLoop_bad_iff _ _ _ _ _ _ _ _ _ _ _ _ heq
  constructor
  · rintro ⟨⟨hb, ho⟩, hacc⟩
    subst hb
    have hgood := hbad.mp rfl
    obtain ⟨-, hnd, hall⟩ := hgood
    subst ho
    obtain ⟨-, hsum⟩ := verifyLoop_sum _ _ _ _ _ _ _ _ _ _ heq
    rcases hsum rfl with ⟨-, hfold⟩ | ⟨hcontra, -⟩
    · refine ⟨hnd, fun i hi => (hall i hi).1, ?_⟩
      rw [checkedSumAt, hfold, hacc]
    · exact absurd hcontra (by simp)
  · rintro ⟨hnd, hall, hsum⟩
    have hb : bad = false := by
      rw [hbad]
      exact ⟨rfl, hnd, fun i hi => ⟨hall i hi, by simp⟩⟩
    subst hb
    obtain ⟨-, hsum'⟩ := verifyLoop_sum _ _ _ _ _ _ _ _ _ _ heq
    rcases hsum' rfl with ⟨ho, hfold⟩ | ⟨-, hfold⟩
    · rw [checkedSumAt, hfold] at hsum
      injection hsum with hsum
      exact ⟨⟨rfl, ho⟩, hsum⟩
    · rw [checkedSumAt, hfold] at hsum
      exact absurd hsum (by simp)

/-! ## Claim theorems -/

/-- C6: the merkle root of the empty leaf sequence is the all-zero
32-byte value, and the merkle root of any single leaf is that leaf
unchanged, with no hashing pass applied. -/
theorem C6_merkle_base :
    compute_merkle_root [] = List.replicate 32 0 ∧
    ∀ h : List Nat, compute_merkle_root [h] = h :=
  ⟨rfl, fun _ => rfl⟩

/-- C8 counterexample: the two genesis artifacts of the repository do not
fix a single frozen (timestamp, difficulty_target) pair — the golden test
asserts timestamp 1609459200 and difficulty 1000 while the vector
generator's genesis header uses timestamp 1704067200 and difficulty 100. -/
theorem C8_counterexample :
    generateVectorsGenesisHeader.block_index = 0 ∧
    generateVectorsGenesisHeader.nonce = goldenGenesisNonce ∧
    generateVectorsGenesisHeader.timestamp ≠ goldenGenesisTimestamp ∧
    generateVectorsGenesisHeader.difficulty_target ≠ goldenGenesisDifficulty := by
  refine ⟨rfl, rfl, ?_, ?_⟩ <;> decide

/-- C8 (amended): each genesis artifact has block_index 0 and fixes
nonce to the common frozen constant 0, but the frozen timestamp and
difficulty_target constants differ between the two artifacts: the golden
test asserts (1609459200, 1000) while the vector generator's genesis
header carries (1704067200, 100). -/
theorem C8_genesis_artifacts :
    goldenGenesisTimestamp = 1609459200 ∧
    goldenGenesisDifficulty = 1000 ∧
    goldenGenesisNonce = 0 ∧
    generateVectorsGenesisHeader.block_index = 0 ∧
    generateVectorsGenesisHeader.timestamp = 1704067200 ∧
    generateVectorsGenesisHeader.difficulty_target = 100 ∧
    generateVectorsGenesisHeader.nonce = 0 :=
  ⟨rfl, rfl, rfl, rfl, rfl, rfl, rfl⟩

/-- C9: the tier-derived budgets are monotone in tier order across all
three budget fields: a tier at most as high never gets a larger max_ops,
max_duration_ms or max_memory_bytes. -/
theorem C9_budget_monotone :
    ∀ t1 t2 : HardwareTier, t1.tierIndex ≤ t2.tierIndex →
      (VerifyBudget.from_tier t1).max_ops ≤ (VerifyBudget.from_tier t2).max_ops ∧
      (VerifyBudget.from_tier t1).max_duration_ms ≤
        (VerifyBudget.from_tier t2).max_duration_ms ∧
      (VerifyBudget.from_tier t1).max_memory_bytes ≤
        (VerifyBudget.from_tier t2).max_memory_bytes := by
  intro t1 t2
  cases t1 <;> cases t2 <;> decide

/-- C9 witness: concrete instance Mobile against Cluster. -/
theorem C9_witness :
    (VerifyBudget.from_tier .Mobile).max_ops ≤ (VerifyBudget.from_tier .Cluster).max_ops ∧
    (VerifyBudget.from_tier .Mobile).max_duration_ms ≤
      (VerifyBudget.from_tier .Cluster).max_duration_ms ∧
    (VerifyBudget.from_tier .Mobile).max_memory_bytes ≤
      (VerifyBudget.from_tier .Cluster).max_memory_bytes :=
  C9_budget_monotone .Mobile .Cluster (by decide)

/-- C1 counterexample: the claim's concrete scenario is arithmetically
wrong — against elements [3, 7, 11] with target 18, the indices [0, 2]
select 3 and 11, whose overflow-checked sum is 14, not 18, so verify
returns a successful verdict with valid = false, where the claim asserts
valid = true. -/
theorem C1_counterexample :
    verify_solution scenarioProblem { indices := [0, 2], timestamp := 0 } scenarioBudget =
      .ok { valid := false, ops_used := 2 } ∧
    checkedSumAt scenarioProblem.elements [0, 2] = some 14 ∧
    scenarioProblem.target = 18 :=
  ⟨rfl, rfl, rfl⟩

/-- C1 (amended): whenever verify returns successfully, the verdict has
valid = true iff the solution's indices contain no duplicate, no index is
out of range for the problem's elements, the overflow-checked sum of the
elements at those indices does not overflow, and that sum equals the
problem's target; for elements [3, 7, 11] with target 18 the indices
[1, 2] (7 + 11 = 18) are valid while [0, 1] (3 + 7 = 10) and the
duplicate [0, 0] are invalid — and a duplicate pair [0, 0] is invalid
against any problem on which verify returns successfully. -/
theorem C1_valid_iff :
    (∀ (p : Problem) (s : Solution) (b : VerifyBudget) (r : VerifyResult),
      verify_solution p s b = .ok r →
      (r.valid = true ↔ s.indices.Nodup ∧ (∀ i ∈ s.indices, i < p.elements.length) ∧
        checkedSumAt p.elements s.indices = some p.target)) ∧
    (∀ (p : Problem) (b : VerifyBudget) (t : Int) (r : VerifyResult),
      verify_solution p { indices := [0, 0], timestamp := t } b = .ok r →
      r.valid = false) ∧
    verify_solution scenarioProblem { indices := [1, 2], timestamp := 0 } scenarioBudget =
      .ok { valid := true, ops_used := 2 } ∧
    verify_solution scenarioProblem { indices := [0, 1], timestamp := 0 } scenarioBudget =
      .ok { valid := false, ops_used := 2 } ∧
    verify_solution scenarioProblem { indices := [0, 0], timestamp := 0 } scenarioBudget =
      .ok { valid := false, ops_used := 2 } := by
  refine ⟨verify_valid_iff, ?_, rfl, rfl, rfl⟩
  intro p b t r h
  cases hval : r.valid
  · rfl
  · have := (verify_valid_iff _ _ _ _ h).mp hval
    exact absurd this.1 (by simp)

/-- C1 witness: the amended validity characterization instantiated at the
concrete scenario problem with indices [1, 2]. -/
theorem C1_witness :
    (({ valid := true, ops_used := 2 } : VerifyResult).valid = true ↔
      ([1, 2] : List Nat).Nodup ∧
      (∀ i ∈ ([1, 2] : List Nat), i < scenarioProblem.elements.length) ∧
      checkedSumAt scenarioProblem.elements [1, 2] = some scenarioProblem.target) :=
  C1_valid_iff.1 scenarioProblem { indices := [1, 2], timestamp := 0 } scenarioBudget
    { valid := true, ops_used := 2 } rfl

/-- C2: on every successful return ops_used is at most the budget's
max_ops, and on every structurally well-formed problem whose budget's
max_ops is smaller than the number of provided indices the verifier stops
with a budget-exceeded error rather than a verdict. -/
theorem C2_budget :
    (∀ (p : Problem) (s : Solution) (b : VerifyBudget) (r : VerifyResult),
      verify_solution p s b = .ok r → r.ops_used ≤ b.max_ops) ∧
    (∀ (p : Problem) (s : Solution) (b : VerifyBudget),
      p.elements ≠ [] →
      p.tier.element_range.1 ≤ p.elements.length →
      p.elements.length ≤ p.tier.element_range.2 →
      b.max_ops < s.indices.length →
      verify_solution p s b = .error .budgetExceeded) :=
  ⟨fun p s b r h => (verify_ok_ops p s b r h).1, verify_budget_exceeded⟩

/-- C2 witness: a successful run whose ops_used is within budget, and a
concrete call with max_ops 2 but three indices that returns the
budget-exceeded error. -/
theorem C2_witness :
    (({ valid := true, ops_used := 2 } : VerifyResult).ops_used ≤ scenarioBudget.max_ops) ∧
    verify_solution scenarioProblem { indices := [0, 1, 2], timestamp := 0 }
      { max_ops := 2, max_duration_ms := 1000, max_memory_bytes := 1048576 } =
      .error .budgetExceeded :=
  ⟨C2_budget.1 scenarioProblem { indices := [1, 2], timestamp := 0 } scenarioBudget
      { valid := true, ops_used := 2 } rfl,
   C2_budget.2 scenarioProblem { indices := [0, 1, 2], timestamp := 0 }
      { max_ops := 2, max_duration_ms := 1000, max_memory_bytes := 1048576 }
      (by decide) (by decide) (by decide) (by decide)⟩

/-- C3: for every structurally valid header — any codec_version-1 header
with 32-byte hash fields, in-width scalars and extra_data bounded, of
length 0 up to the maximum permitted length — canonical encoding succeeds
and decoding the encoding reproduces every field of the header exactly. -/
theorem C3_roundtrip :
    ∀ h : BlockHeader, validHeader h →
      ∃ bytes, encode_block_header h = .ok bytes ∧ decode_block_header bytes = .ok h :=
  fun h hv =>
    ⟨_, encode_ok_of_valid h hv, decode_encode_of_valid h hv _ (encode_ok_of_valid h hv)⟩

theorem validHeader_replicate_extra (k : Nat) (v : Nat) (hv : v < 256)
    (hk : k ≤ MAX_EXTRA_DATA) :
    validHeader { sampleHeader with extra_data := List.replicate k v } := by
  refine ⟨rfl, by norm_num [sampleHeader], by norm_num [sampleHeader], by norm_num [sampleHeader],
    by simp [sampleHeader], ?_, by simp [sampleHeader], ?_, by simp [sampleHeader], ?_,
    by simp [sampleHeader], ?_, by norm_num [sampleHeader], by norm_num [sampleHeader],
    by simpa using hk, ?_⟩
  all_goals intro b hb
  all_goals simp only [sampleHeader, List.mem_replicate] at hb
  all_goals omega

set_option maxRecDepth 4000 in
/-- C3 witness: the round trip at a concrete header with nonempty
extra_data, at the generator's genesis header with empty extra_data, and
at a header carrying extra_data of the maximum permitted length. -/
theorem C3_witness :
    (∃ bytes, encode_block_header sampleHeader = .ok bytes ∧
      decode_block_header bytes = .ok sampleHeader) ∧
    (∃ bytes, encode_block_header generateVectorsGenesisHeader = .ok bytes ∧
      decode_block_header bytes = .ok generateVectorsGenesisHeader) ∧
    (∃ bytes,
      encode_block_header { sampleHeader with extra_data := List.replicate 1024 7 } = .ok bytes ∧
      decode_block_header bytes = .ok { sampleHeader with extra_data := List.replicate 1024 7 }) :=
  ⟨C3_roundtrip sampleHeader (by unfold validHeader isBytes; decide),
   C3_roundtrip generateVectorsGenesisHeader (by unfold validHeader isBytes; decide),
   C3_roundtrip { sampleHeader with extra_data := List.replicate 1024 7 }
     (validHeader_replicate_extra 1024 7 (by norm_num) (by norm_num [MAX_EXTRA_DATA]))⟩

theorem decode_badVersion (v : Nat) (rest : List Nat) (hv : v ≠ CODEC_VERSION) :
    decode_block_header (v :: rest) = .error .badVersion := by
  have h1 : readBytes 1 (v :: rest) = some ([v], rest) := by
    simp [readBytes]
  have h2 : beBytesToNat [v] = v := by simp [beBytesToNat]
  simp only [decode_block_header, h1]
  rw [h2, if_pos hv]

theorem decode_fixed_then (h : BlockHeader) (hv : validHeader h) (suffix : List Nat) :
    decode_block_header (headerFixedPart h ++ suffix) =
      match readBytes 4 suffix with
      | none => .error .truncated
      | some (elb, r10) =>
        if MAX_EXTRA_DATA < beBytesToNat elb then .error .extraDataTooLong
        else match readBytes (beBytesToNat elb) r10 with
          | none => .error .lengthMismatch
          | some (edb, rest) =>
            if rest.isEmpty then .ok { h with extra_data := edb }
            else .error .trailingBytes := by
  obtain ⟨hcv, hbi, hts1, hts2, hph, _, hmr, _, hma, _, hcm, _, hdt, hnn, hed, _⟩ := hv
  have hbir : beBytesToNat (natToBeBytes 8 h.block_index) = h.block_index :=
    beBytesToNat_natToBeBytes 8 _ (by norm_num; omega)
  have htsr : u64ToInt (beBytesToNat (natToBeBytes 8 (intToU64 h.timestamp))) = h.timestamp := by
    rw [beBytesToNat_natToBeBytes 8 _ (by have := intToU64_lt h.timestamp; norm_num; omega)]
    exact u64ToInt_intToU64 _ hts1 hts2
  have hdtr : beBytesToNat (natToBeBytes 8 h.difficulty_target) = h.difficulty_target :=
    beBytesToNat_natToBeBytes 8 _ (by norm_num; omega)
  have hnnr : beBytesToNat (natToBeBytes 8 h.nonce) = h.nonce :=
    beBytesToNat_natToBeBytes 8 _ (by norm_num; omega)
  have hver : beBytesToNat (natToBeBytes 1 CODEC_VERSION) = CODEC_VERSION := by decide
  simp only [decode_block_header, headerFixedPart, List.append_assoc]
  rw [readBytes_append 1 _ _ (natToBeBytes_length 1 _)]
  simp only [hcv, hver, ne_eq, not_true_eq_false, if_false]
  rw [readBytes_append 8 _ _ (natToBeBytes_length 8 _)]
  simp only []
  rw [readBytes_append 8 _ _ (natToBeBytes_length 8 _)]
  simp only []
  rw [readBytes_append 32 _ _ hph]
  simp only []
  rw [readBytes_append 32 _ _ hmr]
  simp only []
  rw [readBytes_append 32 _ _ hma]
  simp only []
  rw [readBytes_append 32 _ _ hcm]
  simp only []
  rw [readBytes_append 8 _ _ (natToBeBytes_length 8 _)]
  simp only []
  rw [readBytes_append 8 _ _ (natToBeBytes_length 8 _)]
  simp only [hbir, htsr, hdtr, hnnr, ← hcv]

theorem decode_length_mismatch (h : BlockHeader) (hv : validHeader h) (len' : Nat)
    (hlt : len' < 2 ^ 32) (hne : len' ≠ h.extra_data.length) :
    ∃ e, decode_block_header
      (headerFixedPart h ++ natToBeBytes 4 len' ++ h.extra_data) = .error e := by
  rw [List.append_assoc, decode_fixed_then h hv]
  rw [readBytes_append 4 _ _ (natToBeBytes_length 4 _)]
  simp only []
  rw [beBytesToNat_natToBeBytes 4 len' (by norm_num; omega)]
  by_cases hmax : MAX_EXTRA_DATA < len'
  · rw [if_pos hmax]
    exact ⟨_, rfl⟩
  · rw [if_neg hmax]
    by_cases hgt : h.extra_data.length < len'
    · have hnone : readBytes len' h.extra_data = none := by
        unfold readBytes
        rw [if_neg (by omega)]
      rw [hnone]
      exact ⟨_, rfl⟩
    · have hle : len' ≤ h.extra_data.length := by omega
      have hsome : readBytes len' h.extra_data =
          some (h.extra_data.take len', h.extra_data.drop len') := by
        unfold readBytes
        rw [if_pos hle]
      rw [hsome]
      simp only []
      have hdrop : (h.extra_data.drop len').isEmpty = false := by
        cases hD : h.extra_data.drop len' with
        | nil =>
          have := congrArg List.length hD
          simp at this
          omega
        | cons a l => rfl
      rw [hdrop]
      exact ⟨_, rfl⟩

/-- C5: the strict decoder is total — every byte sequence resolves to a
header or an explicit error — rejects the empty and every single-byte
input, rejects trailing bytes after a valid encoding, rejects every
strict prefix of a decodable byte string (truncated fields, including
extra_data length prefixes inconsistent with the remaining byte count),
rejects every unrecognized leading codec_version byte, and rejects a
rewritten extra_data length prefix that disagrees with the actual
extra_data length. -/
theorem C5_decode_total :
    (∀ bytes : List Nat, (∃ h, decode_block_header bytes = .ok h) ∨
      (∃ e, decode_block_header bytes = .error e)) ∧
    decode_block_header [] = .error .truncated ∧
    (∀ b : Nat, ∃ e, decode_block_header [b] = .error e) ∧
    (∀ (h : BlockHeader) (bs tail : List Nat), validHeader h →
      encode_block_header h = .ok bs → tail ≠ [] →
      decode_block_header (bs ++ tail) = .error .trailingBytes) ∧
    (∀ (bytes : List Nat) (h : BlockHeader) (n : Nat), decode_block_header bytes = .ok h →
      n < bytes.length → ∀ h', decode_block_header (bytes.take n) ≠ .ok h') ∧
    (∀ (v : Nat) (rest : List Nat), v ≠ CODEC_VERSION →
      decode_block_header (v :: rest) = .error .badVersion) ∧
    (∀ (h : BlockHeader) (len' : Nat), validHeader h → len' < 2 ^ 32 →
      len' ≠ h.extra_data.length →
      ∃ e, decode_block_header
        (headerFixedPart h ++ natToBeBytes 4 len' ++ h.extra_data) = .error e) := by
  refine ⟨?_, rfl, ?_, ?_, decode_reject_truncated, decode_badVersion,
    fun h len' hv hlt hne => decode_length_mismatch h hv len' hlt hne⟩
  · intro bytes
    cases hd : decode_block_header bytes with
    | ok h => exact Or.inl ⟨h, rfl⟩
    | error e => exact Or.inr ⟨e, rfl⟩
  · intro b
    by_cases hb : b = CODEC_VERSION
    · subst hb
      exact ⟨.truncated, rfl⟩
    · exact ⟨.badVersion, decode_badVersion b [] hb⟩
  · intro h bs tail hv he hne
    rw [encode_ok_of_valid h hv] at he
    injection he with he
    subst he
    rw [List.append_assoc (headerFixedPart h ++ natToBeBytes 4 h.extra_data.length)]
    rw [decode_encode_with_tail h hv tail, if_neg (by simpa using hne)]

set_option maxRecDepth 4000 in
/-- C5 witness: the trailing-byte rejection, the truncation rejection and
the inconsistent-length-prefix rejection instantiated at the concrete
sample header. -/
theorem C5_witness :
    decode_block_header
        ((headerFixedPart sampleHeader ++ natToBeBytes 4 3 ++ [1, 2, 3]) ++ [0]) =
      .error .trailingBytes ∧
    (∃ e, decode_block_header [7] = .error e) ∧
    (∃ e, decode_block_header
      (headerFixedPart sampleHeader ++ natToBeBytes 4 7 ++ [1, 2, 3]) = .error e) := by
  refine ⟨?_, C5_decode_total.2.2.1 7, ?_⟩
  · have := C5_decode_total.2.2.2.1 sampleHeader
      (headerFixedPart sampleHeader ++ natToBeBytes 4 3 ++ [1, 2, 3]) [0]
      (by unfold validHeader isBytes; decide) (by rfl) (by decide)
    exact this
  · exact C5_decode_total.2.2.2.2.2.2 sampleHeader 7
      (by unfold validHeader isBytes; decide) (by norm_num) (by decide)

/-- C4: the verifier errors only for structural malformation (empty
elements or an element count outside the tier's permitted range) or
budget exhaustion; every structurally well-formed call whose index count
fits the budget returns a verdict; every other adversarial shape — a
duplicate index, an out-of-range index, an overflow of the checked sum,
or a checked sum that misses the target — is folded into a successful
return with valid = false, never an error; and the FFI wrapper maps
every Ok result of verify_solution to result code Ok with out_valid set
from result.valid, reserves ErrorVerificationFailed for
verify_solution's Err path, and reports an unrecognized tier tag as
ErrorInvalidInput. -/
theorem C4_error_semantics :
    (∀ (p : Problem) (s : Solution) (b : VerifyBudget) (e : VerifyError),
      verify_solution p s b = .error e →
      (e = .invalidInput ∧ (p.elements = [] ∨
        p.elements.length < p.tier.element_range.1 ∨
        p.tier.element_range.2 < p.elements.length)) ∨
      (e = .budgetExceeded ∧ b.max_ops < s.indices.length)) ∧
    (∀ (p : Problem) (s : Solution) (b : VerifyBudget),
      p.elements ≠ [] → p.tier.element_range.1 ≤ p.elements.length →
      p.elements.length ≤ p.tier.element_range.2 → s.indices.length ≤ b.max_ops →
      ∃ r, verify_solution p s b = .ok r) ∧
    (∀ (p : Problem) (s : Solution) (b : VerifyBudget) (r : VerifyResult),
      verify_solution p s b = .ok r → ¬s.indices.Nodup → r.valid = false) ∧
    (∀ (p : Problem) (s : Solution) (b : VerifyBudget) (r : VerifyResult) (i : Nat),
      verify_solution p s b = .ok r → i ∈ s.indices → p.elements.length ≤ i →
      r.valid = false) ∧
    (∀ (p : Problem) (s : Solution) (b : VerifyBudget) (r : VerifyResult),
      verify_solution p s b = .ok r → checkedSumAt p.elements s.indices = none →
      r.valid = false) ∧
    (∀ (p : Problem) (s : Solution) (b : VerifyBudget) (r : VerifyResult) (v : Int),
      verify_solution p s b = .ok r → checkedSumAt p.elements s.indices = some v →
      v ≠ p.target → r.valid = false) ∧
    (∀ (p : SubsetSumProblemFFI) (s : SubsetSumSolutionFFI) (b : VerifyBudgetFFI)
        (elems : List Int) (idxs : List Nat) (tier : HardwareTier),
      p.elements = some elems → elems ≠ [] → s.indices = some idxs →
      decodeTierTag p.tier = some tier →
      (∀ r : VerifyResult,
        verify_solution
          { problem_type := .SubsetSum, tier := tier, elements := elems,
            target := p.target, timestamp := p.timestamp }
          { indices := idxs, timestamp := s.timestamp }
          { max_ops := b.max_ops, max_duration_ms := b.max_duration_ms,
            max_memory_bytes := b.max_memory_bytes } = .ok r →
        coinjecture_verify_subset_sum (some p) (some s) (some b) false =
          (.Ok, some r.valid)) ∧
      (∀ e : VerifyError,
        verify_solution
          { problem_type := .SubsetSum, tier := tier, elements := elems,
            target := p.target, timestamp := p.timestamp }
          { indices := idxs, timestamp := s.timestamp }
          { max_ops := b.max_ops, max_duration_ms := b.max_duration_ms,
            max_memory_bytes := b.max_memory_bytes } = .error e →
        coinjecture_verify_subset_sum (some p) (some s) (some b) false =
          (.ErrorVerificationFailed, none))) ∧
    (∀ (p : SubsetSumProblemFFI) (s : SubsetSumSolutionFFI) (b : VerifyBudgetFFI)
        (elems : List Int) (idxs : List Nat),
      p.elements = some elems → elems ≠ [] → s.indices = some idxs →
      decodeTierTag p.tier = none →
      coinjecture_verify_subset_sum (some p) (some s) (some b) false =
        (.ErrorInvalidInput, none)) := by
  refine ⟨verify_error_cases, verify_ok_of_budget, ?_, ?_, ?_, ?_, ?_, ?_⟩
  · intro p s b r h hnd
    cases hval : r.valid
    · rfl
    · exact absurd ((verify_valid_iff p s b r h).mp hval).1 hnd
  · intro p s b r i h hi hge
    cases hval : r.valid
    · rfl
    · have := ((verify_valid_iff p s b r h).mp hval).2.1 i hi
      omega
  · intro p s b r h hnone
    cases hval : r.valid
    · rfl
    · have := ((verify_valid_iff p s b r h).mp hval).2.2
      rw [hnone] at this
      exact absurd this (by simp)
  · intro p s b r v h hsum hne
    cases hval : r.valid
    · rfl
    · have := ((verify_valid_iff p s b r h).mp hval).2.2
      rw [hsum] at this
      injection this with this
      exact absurd this hne
  · intro p s b elems idxs tier hpe hne hsi htier
    have hemp : elems.isEmpty = false := by
      cases elems with
      | nil => exact absurd rfl hne
      | cons x xs => rfl
    constructor
    · intro r hr
      simp only [coinjecture_verify_subset_sum, hpe, hsi, htier, hemp, hr,
        Bool.false_eq_true, if_false]
    · intro e he
      simp only [coinjecture_verify_subset_sum, hpe, hsi, htier, hemp, he,
        Bool.false_eq_true, if_false]
  · intro p s b elems idxs hpe hne hsi htier
    have hemp : elems.isEmpty = false := by
      cases elems with
      | nil => exact absurd rfl hne
      | cons x xs => rfl
    simp only [coinjecture_verify_subset_sum, hpe, hsi, htier, hemp,
      Bool.false_eq_true, if_false]

/-- C4 witness: a structurally well-formed call returning a verdict; a
duplicate-index, an out-of-range-index, an overflowing and a
missed-target call each returning a successful verdict whose valid is
false; the FFI wrapper returning result code Ok with out_valid true on a
valid concrete solution; and the FFI wrapper rejecting an unrecognized
tier tag 9 as ErrorInvalidInput. -/
theorem C4_witness :
    (∃ r, verify_solution scenarioProblem { indices := [1, 2], timestamp := 0 }
      scenarioBudget = .ok r) ∧
    (verify_solution scenarioProblem { indices := [0, 0], timestamp := 0 } scenarioBudget =
      .ok { valid := false, ops_used := 2 } ∧
     ({ valid := false, ops_used := 2 } : VerifyResult).valid = false) ∧
    (verify_solution scenarioProblem { indices := [5], timestamp := 0 } scenarioBudget =
      .ok { valid := false, ops_used := 1 } ∧
     ({ valid := false, ops_used := 1 } : VerifyResult).valid = false) ∧
    (verify_solution
      { problem_type := .SubsetSum, tier := .Mobile,
        elements := [9223372036854775807, 1], target := 0, timestamp := 0 }
      { indices := [0, 1], timestamp := 0 } scenarioBudget =
      .ok { valid := false, ops_used := 2 } ∧
     checkedSumAt [9223372036854775807, 1] [0, 1] = none ∧
     ({ valid := false, ops_used := 2 } : VerifyResult).valid = false) ∧
    (verify_solution scenarioProblem { indices := [0, 1], timestamp := 0 } scenarioBudget =
      .ok { valid := false, ops_used := 2 } ∧
     checkedSumAt scenarioProblem.elements [0, 1] = some 10 ∧
     ({ valid := false, ops_used := 2 } : VerifyResult).valid = false) ∧
    coinjecture_verify_subset_sum
      (some { problem_type := 0, tier := 0, elements := some [3, 7, 11],
              target := 18, timestamp := 0 })
      (some { indices := some [1, 2], timestamp := 0 })
      (some { max_ops := 1000, max_duration_ms := 1000, max_memory_bytes := 1048576 })
      false = (.Ok, some true) ∧
    coinjecture_verify_subset_sum
      (some { problem_type := 0, tier := 9, elements := some [3, 7, 11],
              target := 18, timestamp := 0 })
      (some { indices := some [1, 2], timestamp := 0 })
      (some { max_ops := 1000, max_duration_ms := 1000, max_memory_bytes := 1048576 })
      false = (.ErrorInvalidInput, none) :=
  ⟨C4_error_semantics.2.1 scenarioProblem { indices := [1, 2], timestamp := 0 }
      scenarioBudget (by decide) (by decide) (by decide) (by decide),
   ⟨rfl, C4_error_semantics.2.2.1 scenarioProblem { indices := [0, 0], timestamp := 0 }
      scenarioBudget { valid := false, ops_used := 2 } rfl (by decide)⟩,
   ⟨rfl, C4_error_semantics.2.2.2.1 scenarioProblem { indices := [5], timestamp := 0 }
      scenarioBudget { valid := false, ops_used := 1 } 5 rfl (by decide) (by decide)⟩,
   ⟨rfl, rfl, C4_error_semantics.2.2.2.2.1
      { problem_type := .SubsetSum, tier := .Mobile,
        elements := [9223372036854775807, 1], target := 0, timestamp := 0 }
      { indices := [0, 1], timestamp := 0 } scenarioBudget
      { valid := false, ops_used := 2 } rfl rfl⟩,
   ⟨rfl, rfl, C4_error_semantics.2.2.2.2.2.1 scenarioProblem
      { indices := [0, 1], timestamp := 0 } scenarioBudget
      { valid := false, ops_used := 2 } 10 rfl rfl (by decide)⟩,
   (C4_error_semantics.2.2.2.2.2.2.1
      { problem_type := 0, tier := 0, elements := some [3, 7, 11], target := 18, timestamp := 0 }
      { indices := some [1, 2], timestamp := 0 }
      { max_ops := 1000, max_duration_ms := 1000, max_memory_bytes := 1048576 }
      [3, 7, 11] [1, 2] .Mobile rfl (by decide) rfl rfl).1
      { valid := true, ops_used := 2 } rfl,
   C4_error_semantics.2.2.2.2.2.2.2
      { problem_type := 0, tier := 9, elements := some [3, 7, 11], target := 18, timestamp := 0 }
      { indices := some [1, 2], timestamp := 0 }
      { max_ops := 1000, max_duration_ms := 1000, max_memory_bytes := 1048576 }
      [3, 7, 11] [1, 2] rfl (by decide) rfl rfl⟩

/-- C7 counterexample: coinjecture_compute_merkle_root with a null
tx_hashes pointer and tx_count 1 does not return ErrorInvalidInput — it
folds the null pointer into the empty leaf list and returns Ok with the
all-zero root. -/
theorem C7_counterexample :
    coinjecture_compute_merkle_root none 1 false = (.Ok, some (List.replicate 32 0)) ∧
    (coinjecture_compute_merkle_root none 1 false).1 ≠ .ErrorInvalidInput := by
  refine ⟨rfl, ?_⟩
  decide

/-- C7 (amended): the hash, header-hash and verify FFI calls return
ErrorInvalidInput on every null required pointer (input buffer, header,
extra_data with positive declared length, problem, solution, budget,
out_valid, elements, indices, and the output buffers), but
coinjecture_compute_merkle_root checks only its output pointer: a null
tx_hashes pointer is treated as an empty leaf list for any tx_count and
the call returns Ok with the all-zero root. -/
theorem C7_null_handling :
    (∀ out, coinjecture_sha256_hash none out = (.ErrorInvalidInput, none)) ∧
    (∀ data : List Nat, coinjecture_sha256_hash (some data) true = (.ErrorInvalidInput, none)) ∧
    (∀ out, coinjecture_compute_header_hash none out = (.ErrorInvalidInput, none)) ∧
    (∀ h : BlockHeaderFFI,
      coinjecture_compute_header_hash (some h) true = (.ErrorInvalidInput, none)) ∧
    (∀ h : BlockHeaderFFI, 0 < h.extra_data_len → h.extra_data = none →
      coinjecture_compute_header_hash (some h) false = (.ErrorInvalidInput, none)) ∧
    (∀ s b out, coinjecture_verify_subset_sum none s b out = (.ErrorInvalidInput, none)) ∧
    (∀ p b out, coinjecture_verify_subset_sum p none b out = (.ErrorInvalidInput, none)) ∧
    (∀ p s out, coinjecture_verify_subset_sum p s none out = (.ErrorInvalidInput, none)) ∧
    (∀ p s b, coinjecture_verify_subset_sum (some p) (some s) (some b) true =
      (.ErrorInvalidInput, none)) ∧
    (∀ (p : SubsetSumProblemFFI) (s : SubsetSumSolutionFFI) (b : VerifyBudgetFFI) out,
      p.elements = none →
      coinjecture_verify_subset_sum (some p) (some s) (some b) out =
        (.ErrorInvalidInput, none)) ∧
    (∀ (p : SubsetSumProblemFFI) (s : SubsetSumSolutionFFI) (b : VerifyBudgetFFI)
        (elems : List Int) out,
      p.elements = some elems → s.indices = none →
      coinjecture_verify_subset_sum (some p) (some s) (some b) out =
        (.ErrorInvalidInput, none)) ∧
    (∀ hashes txCount,
      coinjecture_compute_merkle_root hashes txCount true = (.ErrorInvalidInput, none)) ∧
    (∀ txCount, coinjecture_compute_merkle_root none txCount false =
      (.Ok, some (compute_merkle_root []))) := by
  refine ⟨fun out => rfl, fun data => rfl, fun out => rfl, fun h => rfl, ?_, ?_, ?_, ?_,
    fun p s b => rfl, ?_, ?_, ?_, ?_⟩
  · intro h hlen hnone
    simp only [coinjecture_compute_header_hash, Bool.false_eq_true, if_false]
    rw [if_pos ⟨hlen, hnone⟩]
  · intro s b out
    rfl
  · intro p b out
    cases p <;> rfl
  · intro p s out
    cases p <;> cases s <;> rfl
  · intro p s b out hpe
    cases hout : out
    · simp only [coinjecture_verify_subset_sum, hpe, Bool.false_eq_true, if_false]
    · rfl
  · intro p s b elems out hpe hsi
    cases hout : out
    · simp only [coinjecture_verify_subset_sum, hpe, hsi, Bool.false_eq_true, if_false]
    · rfl
  · intro hashes txCount
    rfl
  · intro txCount
    simp only [coinjecture_compute_merkle_root, Bool.false_eq_true, if_false]
    simp

/-- C7 witness: the null-handling facts instantiated at concrete inputs —
a null extra_data pointer with declared length 1, and a null elements
pointer. -/
theorem C7_witness :
    coinjecture_compute_header_hash
      (some { ffiHeaderV1 with extra_data_len := 1, extra_data := none }) false =
      (.ErrorInvalidInput, none) ∧
    coinjecture_verify_subset_sum
      (some { problem_type := 0, tier := 0, elements := none, target := 0, timestamp := 0 })
      (some { indices := some [], timestamp := 0 })
      (some { max_ops := 1, max_duration_ms := 1, max_memory_bytes := 1 })
      false = (.ErrorInvalidInput, none) :=
  ⟨C7_null_handling.2.2.2.2.1 { ffiHeaderV1 with extra_data_len := 1, extra_data := none }
      (by decide) rfl,
   C7_null_handling.2.2.2.2.2.2.2.2.2.1
      { problem_type := 0, tier := 0, elements := none, target := 0, timestamp := 0 }
      { indices := some [], timestamp := 0 }
      { max_ops := 1, max_duration_ms := 1, max_memory_bytes := 1 } false rfl⟩

/-- C10: the FFI header-hash conversion truncates codec_version to 8
bits, so the computed hash depends on codec_version only through its
value modulo 256 — two FFI headers identical except for codec_version
values congruent modulo 256 produce identical call results; in
particular the concrete pair with codec_version 1 and 257 both succeed
with result code Ok and the identical hash output. -/
theorem C10_version_truncation :
    (∀ h1 h2 : BlockHeaderFFI,
      h1.codec_version % 256 = h2.codec_version % 256 →
      h1.block_index = h2.block_index → h1.timestamp = h2.timestamp →
      h1.parent_hash = h2.parent_hash → h1.merkle_root = h2.merkle_root →
      h1.miner_address = h2.miner_address → h1.commitment = h2.commitment →
      h1.difficulty_target = h2.difficulty_target → h1.nonce = h2.nonce →
      h1.extra_data_len = h2.extra_data_len → h1.extra_data = h2.extra_data →
      ∀ out, coinjecture_compute_header_hash (some h1) out =
        coinjecture_compute_header_hash (some h2) out) ∧
    (coinjecture_compute_header_hash (some ffiHeaderV1) false =
      coinjecture_compute_header_hash (some ffiHeaderV257) false ∧
     (coinjecture_compute_header_hash (some ffiHeaderV1) false).1 = .Ok) := by
  refine ⟨?_, ?_, rfl⟩
  · intro h1 h2 hcv hbi hts hph hmr hma hcm hdt hnn hlen hed out
    simp only [coinjecture_compute_header_hash, hcv, hbi, hts, hph, hmr, hma, hcm,
      hdt, hnn, hlen, hed]
  · rfl

/-- C10 witness: the modulo-256 dependence instantiated at the concrete
header pair with codec_version 1 and 257. -/
theorem C10_witness :
    coinjecture_compute_header_hash (some ffiHeaderV1) false =
      coinjecture_compute_header_hash (some ffiHeaderV257) false :=
  C10_version_truncation.1 ffiHeaderV1 ffiHeaderV257 rfl rfl rfl rfl rfl rfl rfl
    rfl rfl rfl rfl false
